import Mathlib

/-!
Verification of the chat-history core of `app.py` (a Streamlit chat front-end
over the Groq HTTP API).  The Python functions `truncate_history_by_chars`,
`build_input_from_history`, `parse_groq_response` and
`call_groq_api_with_input` are embedded shallowly below; Python strings are
modelled as lists of characters, Python ints as `Int`, JSON values as the
inductive type `JVal`, and the HTTP transport as an explicit outcome value.
-/

/-- A Python string, modelled as its list of characters. -/
abbrev PyStr := List Char

/-- Convert a Lean string literal to the `PyStr` model. -/
def pstr (s : String) : PyStr := s.data

/-- One conversation turn: an element of `st.session_state.history`,
a dict with keys `role`, `content`, `time`. -/
structure Msg where
  role : PyStr
  content : PyStr
  time : PyStr
deriving DecidableEq, Repr

/-- Python `sum(len(m["content"]) for m in history)` — total character count of a history. -/
def totalChars : List Msg → Nat
  | [] => 0
  | m :: rest => m.content.length + totalChars rest

/-- Python `s[-r:]` for `r > 0`: the last `min r (len s)` characters of `s`. -/
def pyTakeLast (s : PyStr) (r : Nat) : PyStr := s.drop (s.length - r)

/-- Test `m["role"] == "system"`. -/
def isSystem (m : Msg) : Bool := m.role == pstr ("system")

/-- The `for m in reversed_msgs:` loop of `truncate_history_by_chars`
(app.py lines 42-53).  `acc` is `new_hist`, `current` is `current_chars`;
the loop body appends whole turns while they fit, keeps a suffix of the
first turn that does not fit when more than 50 characters of budget remain,
and stops at that turn either way. -/
def truncLoop (max_chars : Int) : List Msg → Nat → List Msg → List Msg
  | acc, _, [] => acc
  | acc, current, m :: rest =>
    if (current : Int) + m.content.length ≤ max_chars then
      truncLoop max_chars (acc ++ [m]) (current + m.content.length) rest
    else
      if max_chars - (current : Int) > 50 then
        acc ++ [{ m with content := pyTakeLast m.content (max_chars - (current : Int)).toNat }]
      else
        acc

/-- Function `truncate_history_by_chars(history, max_chars)` (app.py lines 32-54):
return the history unchanged when `max_chars <= 0` or the total fits;
otherwise start from the system turns, walk the non-system turns from most
recent to oldest accumulating whole turns (plus at most one suffix), and
return the reversal of the accumulated list. -/
def truncate_history_by_chars (history : List Msg) (max_chars : Int) : List Msg :=
  if max_chars ≤ 0 then history
  else if (totalChars history : Int) ≤ max_chars then history
  else
    (truncLoop max_chars (history.filter isSystem)
      (totalChars (history.filter isSystem))
      ((history.filter (fun m => !(isSystem m))).reverse)).reverse

/-! ### `build_input_from_history` (app.py lines 56-73) -/

/-- ASCII whitespace recognised by Python `str.strip()`
(space, tab, newline, carriage return, vertical tab, form feed;
other Unicode whitespace is not used by this program). -/
def pyIsSpace (c : Char) : Bool :=
  c == ' ' || c == '\t' || c == '\n' || c == '\r' || c == Char.ofNat 11 || c == Char.ofNat 12

/-- Python `s.strip()`: remove leading and trailing whitespace. -/
def pyStrip (s : PyStr) : PyStr :=
  ((s.dropWhile pyIsSpace).reverse.dropWhile pyIsSpace).reverse

/-- Python `s.upper()` (ASCII case mapping, which covers the roles used here). -/
def pyUpper (s : PyStr) : PyStr := s.map Char.toUpper

/-- Lines 68-70: after upper-casing, any role outside
`SYSTEM`, `USER`, `ASSISTANT` is replaced by `USER`. -/
def normRole (role : PyStr) : PyStr :=
  if role == pstr ("SYSTEM") || role == pstr ("USER") || role == pstr ("ASSISTANT") then role
  else pstr ("USER")

/-- One loop iteration of `build_input_from_history`:
the part `f"[{role}]: {content}"` appended for turn `m`, with `role`
the normalised upper-cased role and `content` the stripped content. -/
def renderTurn (m : Msg) : PyStr :=
  pstr ("[") ++ normRole (pyUpper m.role) ++ pstr ("]: ") ++ pyStrip m.content

/-- The `parts` list accumulated by the loop, one entry per turn in order. -/
def buildParts : List Msg → List PyStr
  | [] => []
  | m :: rest => renderTurn m :: buildParts rest

/-- Function `build_input_from_history(history)`: `"\n\n".join(parts)`. -/
def build_input_from_history (history : List Msg) : PyStr :=
  List.intercalate (pstr ("\n\n")) (buildParts history)

/-! ### JSON values and `parse_groq_response` (app.py lines 78-121) -/

/-- A JSON value as produced by `resp.json()`.  Numbers are modelled as
integers (no float appears in any response shape the parser inspects). -/
inductive JVal where
  | str (s : PyStr)
  | num (n : Int)
  | bool (b : Bool)
  | null
  | arr (elems : List JVal)
  | obj (fields : List (PyStr × JVal))
deriving Repr

/-- Python `d.get(key)` on a dict: the first binding of `key`, else `None`. -/
def jGet (fields : List (PyStr × JVal)) (key : PyStr) : Option JVal :=
  match fields.find? (fun kv => kv.fst == key) with
  | some kv => some kv.snd
  | none => none

/-- Python truthiness of a JSON value (used by `out.get("content") or []`). -/
def pyTruthy : JVal → Bool
  | .str s => !s.isEmpty
  | .num n => n != 0
  | .bool b => b
  | .null => false
  | .arr xs => !xs.isEmpty
  | .obj fs => !fs.isEmpty

/-- Lines 92-97: scan a `content` list for the first dict element carrying a
string `text` field, else a string `content` field. -/
def scanContent : List JVal → Option PyStr
  | [] => none
  | .obj fs :: rest =>
    (match jGet fs (pstr ("text")) with
     | some (.str t) => some t
     | _ =>
       match jGet fs (pstr ("content")) with
       | some (.str t) => some t
       | _ => scanContent rest)
  | _ :: rest => scanContent rest

/-- Line 90: `content_list = out.get("content") or []`. -/
def contentListOf (fs : List (PyStr × JVal)) : JVal :=
  match jGet fs (pstr ("content")) with
  | some v => if pyTruthy v then v else .arr []
  | none => .arr []

/-- Lines 88-97: the `for out in outputs` loop.  Only dict elements whose
(truthy) `content` field is a list are scanned; every other element is
skipped. -/
def scanOutputs : List JVal → Option PyStr
  | [] => none
  | .obj fs :: rest =>
    (match contentListOf fs with
     | .arr cs =>
       (match scanContent cs with
        | some t => some t
        | none => scanOutputs rest)
     | _ => scanOutputs rest)
  | _ :: rest => scanOutputs rest

/-- Lines 112-113: `if "text" in ch0 and isinstance(ch0["text"], str)`. -/
def choiceText (fs : List (PyStr × JVal)) : Option JVal :=
  match jGet fs (pstr ("text")) with
  | some (.str t) => some (.str t)
  | _ => none

/-- Lines 101-113: the `choices[0]` probing.  Note line 111 returns
`cont["text"]` without checking that it is a string, so the extracted value
is an arbitrary `JVal` there. -/
def parseChoices (ch0 : JVal) : Option JVal :=
  match ch0 with
  | .obj fs =>
    (match jGet fs (pstr ("message")) with
     | some (.obj ms) =>
       (match jGet ms (pstr ("content")) with
        | some (.str c) => some (.str c)
        | some (.obj cf) =>
          (match jGet cf (pstr ("text")) with
           | some v => some v
           | none => choiceText fs)
        | _ => choiceText fs)
     | _ => choiceText fs)
  | _ => none

/-- Hexadecimal digit, lower case. -/
def hexDigit (n : Nat) : Char :=
  if n < 10 then Char.ofNat (48 + n) else Char.ofNat (87 + n)

/-- Four lower-case hexadecimal digits. -/
def hex4 (n : Nat) : PyStr :=
  [hexDigit (n / 4096 % 16), hexDigit (n / 256 % 16), hexDigit (n / 16 % 16), hexDigit (n % 16)]

/-- JSON string escaping as done by Python `json.dumps` with its default
`ensure_ascii=True`: double quote and backslash escaped, the usual short
escapes, and every other control or non-ASCII character as `\uXXXX`
(a surrogate pair beyond the BMP). -/
def jsonEscapeChar (c : Char) : PyStr :=
  if c == Char.ofNat 34 then [Char.ofNat 92, Char.ofNat 34]
  else if c == Char.ofNat 92 then [Char.ofNat 92, Char.ofNat 92]
  else if c == '\n' then [Char.ofNat 92, 'n']
  else if c == '\t' then [Char.ofNat 92, 't']
  else if c == '\r' then [Char.ofNat 92, 'r']
  else if c == Char.ofNat 8 then [Char.ofNat 92, 'b']
  else if c == Char.ofNat 12 then [Char.ofNat 92, 'f']
  else if c.toNat < 32 || c.toNat > 126 then
    if c.toNat ≤ 65535 then [Char.ofNat 92, 'u'] ++ hex4 c.toNat
    else
      [Char.ofNat 92, 'u'] ++ hex4 (55296 + (c.toNat - 65536) / 1024)
        ++ [Char.ofNat 92, 'u'] ++ hex4 (56320 + (c.toNat - 65536) % 1024)
  else [c]

/-- A JSON string literal with surrounding double quotes. -/
def jsonQuote (s : PyStr) : PyStr :=
  [Char.ofNat 34] ++ (s.map jsonEscapeChar).flatten ++ [Char.ofNat 34]

mutual
/-- Python `json.dumps` with its default separators `", "` and `": "`. -/
def dumps : JVal → PyStr
  | .str s => jsonQuote s
  | .num n => pstr (toString n)
  | .bool true => pstr ("true")
  | .bool false => pstr ("false")
  | .null => pstr ("null")
  | .arr xs => pstr ("[") ++ dumpsArr xs ++ pstr ("]")
  | .obj fs => [Char.ofNat 123] ++ dumpsObj fs ++ [Char.ofNat 125]

/-- Dump of the elements of an array, comma separated. -/
def dumpsArr : List JVal → PyStr
  | [] => []
  | [x] => dumps x
  | x :: y :: rest => dumps x ++ pstr (", ") ++ dumpsArr (y :: rest)

/-- Dump of the bindings of an object, comma separated. -/
def dumpsObj : List (PyStr × JVal) → PyStr
  | [] => []
  | [kv] => jsonQuote kv.fst ++ pstr (": ") ++ dumps kv.snd
  | kv :: kv2 :: rest =>
    jsonQuote kv.fst ++ pstr (": ") ++ dumps kv.snd ++ pstr (", ") ++ dumpsObj (kv2 :: rest)
end

/-- Quote character chosen by Python `repr` for a string: single quote,
unless the string contains a single quote and no double quote. -/
def pyReprQuote (s : PyStr) : Char :=
  if s.contains (Char.ofNat 39) && !(s.contains (Char.ofNat 34)) then Char.ofNat 34
  else Char.ofNat 39

/-- Python `repr` escaping of one character inside a string literal quoted
by `q` (printable non-ASCII is kept verbatim, as Python does). -/
def pyReprEscChar (q : Char) (c : Char) : PyStr :=
  if c == Char.ofNat 92 then [Char.ofNat 92, Char.ofNat 92]
  else if c == q then [Char.ofNat 92, q]
  else if c == '\n' then [Char.ofNat 92, 'n']
  else if c == '\r' then [Char.ofNat 92, 'r']
  else if c == '\t' then [Char.ofNat 92, 't']
  else if c.toNat < 32 || c.toNat == 127 then
    [Char.ofNat 92, 'x', hexDigit (c.toNat / 16), hexDigit (c.toNat % 16)]
  else [c]

/-- Python `repr` of a string. -/
def pyReprStr (s : PyStr) : PyStr :=
  [pyReprQuote s] ++ (s.map (pyReprEscChar (pyReprQuote s))).flatten ++ [pyReprQuote s]

mutual
/-- Python `repr` of a JSON value. -/
def pyRepr : JVal → PyStr
  | .str s => pyReprStr s
  | .num n => pstr (toString n)
  | .bool true => pstr ("True")
  | .bool false => pstr ("False")
  | .null => pstr ("None")
  | .arr xs => pstr ("[") ++ pyReprArr xs ++ pstr ("]")
  | .obj fs => [Char.ofNat 123] ++ pyReprObj fs ++ [Char.ofNat 125]

/-- Python `repr` of the elements of a list, comma separated. -/
def pyReprArr : List JVal → PyStr
  | [] => []
  | [x] => pyRepr x
  | x :: y :: rest => pyRepr x ++ pstr (", ") ++ pyReprArr (y :: rest)

/-- Python `repr` of the bindings of a dict, comma separated. -/
def pyReprObj : List (PyStr × JVal) → PyStr
  | [] => []
  | [kv] => pyReprStr kv.fst ++ pstr (": ") ++ pyRepr kv.snd
  | kv :: kv2 :: rest =>
    pyReprStr kv.fst ++ pstr (": ") ++ pyRepr kv.snd ++ pstr (", ") ++ pyReprObj (kv2 :: rest)
end

/-- Python `str(v)` of a value decoded from JSON: strings verbatim,
`True`/`False`/`None`, the decimal form of an int, and `repr` for
containers. -/
def pyStrOf : JVal → PyStr
  | .str s => s
  | .num n => pstr (toString n)
  | .bool true => pstr ("True")
  | .bool false => pstr ("False")
  | .null => pstr ("None")
  | .arr xs => pyRepr (.arr xs)
  | .obj fs => pyRepr (.obj fs)

/-- Lines 99-121 of `parse_groq_response`: what runs when the `output` scan
produced no return — the `choices` probing, the top-level `text` field, and
the capped `json.dumps` fallback. -/
def parseAfterOutput (fields : List (PyStr × JVal)) : JVal :=
  match
    (match jGet fields (pstr ("choices")) with
     | some (.arr (ch0 :: _)) => parseChoices ch0
     | _ => none) with
  | some v => v
  | none =>
    match jGet fields (pstr ("text")) with
    | some (.str t) => .str t
    | _ => .str ((dumps (.obj fields)).take 3000)

/-- Function `parse_groq_response(data)` (app.py lines 78-121).  The Python function
is annotated `-> str` but can return a non-string object through line 111,
so the model returns a `JVal`; every Python `return <string>` becomes
`.str`.  The `try: json.dumps(data)` on line 118 cannot fail on a value that
was itself decoded from JSON, so the `except` branch on line 121 is
unreachable and the dump is modelled as total.

Lines 86-97: `outputScan` is the `output` lookup plus element loop; a
return from it short-circuits the rest of the function. -/
def outputScan (fields : List (PyStr × JVal)) : Option PyStr :=
  match jGet fields (pstr ("output")) with
  | some (.arr outs) => scanOutputs outs
  | _ => none

/-- Function `parse_groq_response(data)`: the `output` scan when `data` is a dict,
then the fall-through `parseAfterOutput`, and `str(data)` for non-dicts. -/
def parse_groq_response (data : JVal) : JVal :=
  match data with
  | .obj fields =>
    (match outputScan fields with
     | some t => .str t
     | none => parseAfterOutput fields)
  | _ => .str (pyStrOf data)

/-- Test `isinstance(data, dict)`. -/
def JVal.isObj : JVal → Bool
  | .obj _ => true
  | _ => false

/-! ### `call_groq_api_with_input` (app.py lines 126-156) -/

/-- What the transport collaborator (`requests.post`) hands back on a
completed request: status code, raw text, and the result of `resp.json()`
(`none` when the body is unparsable). -/
structure HttpResponse where
  status : Int
  text : PyStr
  jsonBody : Option JVal
deriving Repr

/-- Property `requests.Response.ok`: status code below 400. -/
def respOk (r : HttpResponse) : Bool := decide (r.status < 400)

/-- Outcome of the `requests.post` call: either a `requests.RequestException`
carrying its display text, or a response. -/
inductive TransportOutcome where
  | exn (e : PyStr)
  | response (r : HttpResponse)
deriving Repr

/-- Lines 130-133: the request headers. -/
def mkHeaders (api_key : PyStr) : List (PyStr × PyStr) :=
  [(pstr ("Authorization"), pstr ("Bearer ") ++ api_key),
   (pstr ("Content-Type"), pstr ("application/json"))]

/-- Lines 135-140: the request payload (the float `0.2` is recorded as
tenths, since no claim inspects it). -/
structure Payload where
  model : PyStr
  input : PyStr
  max_tokens : Int
  temperature_tenths : Int
deriving DecidableEq, Repr

/-- The payload built for a given input text. -/
def mkPayload (input_text : PyStr) : Payload :=
  ⟨pstr ("llama3-8b-8192"), input_text, 512, 2⟩

/-- Function `call_groq_api_with_input(input_text, api_key, endpoint, timeout)`
(app.py lines 126-156) with the transport call abstracted into an explicit
`outcome`: the headers and payload are built exactly as in the source and
handed to the transport, and the returned value is computed from the
outcome alone — a connection-error string, an HTTP-error string holding the
endpoint and a capped body excerpt, the capped raw text when the body is
unparsable, or the parsed response. -/
def call_groq_api_with_input (input_text api_key endpoint : PyStr) (timeout : Int)
    (outcome : TransportOutcome) : JVal :=
  match mkHeaders api_key, mkPayload input_text, timeout, outcome with
  | _, _, _, .exn e => .str (pstr ("[ERROR de conexión] ") ++ e)
  | _, _, _, .response r =>
    if !(respOk r) then
      .str (pstr ("[HTTP ") ++ pstr (toString r.status)
        ++ pstr ("] Error llamando al endpoint.\nURL: ") ++ endpoint
        ++ pstr ("\nRespuesta (parcial): ")
        ++ (if !r.text.isEmpty then r.text.take 1500 else pstr ("<no body>")))
    else
      match r.jsonBody with
      | none => .str (r.text.take 4000)
      | some data => parse_groq_response data

/-! ### Spec-side model of the flattened-text serialization

§4.3 of the specification describes the flattened-text mode as: every turn
(including system) rendered as `[ROLE]: content`, ROLE upper-cased and
coerced to `SYSTEM|USER|ASSISTANT` (anything else to `USER`), turns
separated by a blank line, in chronological order.  `specFlattened` states
that recursively (the amendment against the source: the content is the
content of each turn stripped of leading and trailing whitespace). -/

/-- Spec-side rendering of one turn (with the strip amendment). -/
def specRenderTurn (m : Msg) : PyStr :=
  pstr ("[") ++ normRole (pyUpper m.role) ++ pstr ("]: ") ++ pyStrip m.content

/-- Spec-side flattened text: rendered turns in order, separated by a blank
line. -/
def specFlattened : List Msg → PyStr
  | [] => []
  | [m] => specRenderTurn m
  | m :: rest => specRenderTurn m ++ pstr ("\n\n") ++ specFlattened rest

/-! ### Sample data used by witnesses -/

/-- A sample system turn. -/
def sampleSys : Msg := ⟨pstr ("system"), pstr ("s"), pstr ("t0")⟩

/-- A sample user turn of 10 characters. -/
def sampleU1 : Msg := ⟨pstr ("user"), pstr ("aaaaaaaaaa"), pstr ("t1")⟩

/-- A later sample user turn of 10 characters. -/
def sampleU2 : Msg := ⟨pstr ("user"), pstr ("bbbbbbbbbb"), pstr ("t2")⟩

/-! ### Lemmas about the truncation loop -/

theorem totalChars_append (a b : List Msg) :
    totalChars (a ++ b) = totalChars a + totalChars b := by
  induction a with
  | nil => simp [totalChars]
  | cons m rest ih => simp [totalChars, ih]; omega

theorem totalChars_reverse (l : List Msg) : totalChars l.reverse = totalChars l := by
  induction l with
  | nil => rfl
  | cons m rest ih => simp [totalChars, totalChars_append, ih]; omega

theorem truncLoop_acc_subset (b : Int) (l : List Msg) :
    ∀ (acc : List Msg) (cur : Nat) (x : Msg), x ∈ acc → x ∈ truncLoop b acc cur l := by
  induction l with
  | nil => intro acc cur x hx; simpa [truncLoop] using hx
  | cons m rest ih =>
    intro acc cur x hx
    simp only [truncLoop]
    split
    · exact ih _ _ _ (by simp [hx])
    · split
      · simp [hx]
      · exact hx

theorem mem_truncLoop (b : Int) (l : List Msg) :
    ∀ (acc : List Msg) (cur : Nat) (x : Msg), x ∈ truncLoop b acc cur l →
      x ∈ acc ∨ ∃ m ∈ l, x.role = m.role ∧ x.time = m.time ∧ ∃ p, p ++ x.content = m.content := by
  induction l with
  | nil => intro acc cur x hx; exact Or.inl (by simpa [truncLoop] using hx)
  | cons m rest ih =>
    intro acc cur x hx
    simp only [truncLoop] at hx
    split at hx
    · rcases ih _ _ _ hx with hacc | ⟨m', hm', hprop⟩
      · rcases List.mem_append.mp hacc with hl | hr
        · exact Or.inl hl
        · have hxm : x = m := by simpa using hr
          subst hxm
          exact Or.inr ⟨x, List.mem_cons_self _ _, rfl, rfl, [], by simp⟩
      · exact Or.inr ⟨m', List.mem_cons_of_mem _ hm', hprop⟩
    · split at hx
      · rcases List.mem_append.mp hx with hl | hr
        · exact Or.inl hl
        · have hxm : x = { m with content := pyTakeLast m.content (b - (cur : Int)).toNat } := by
            simpa using hr
          refine Or.inr ⟨m, List.mem_cons_self _ _, by rw [hxm], by rw [hxm], ?_⟩
          refine ⟨m.content.take (m.content.length - (b - (cur : Int)).toNat), ?_⟩
          rw [hxm]
          exact List.take_append_drop _ _
      · exact Or.inl hx

theorem trunc_of_nonpos (h : List Msg) (b : Int) (hb : b ≤ 0) :
    truncate_history_by_chars h b = h := by
  simp [truncate_history_by_chars, hb]

theorem trunc_of_total_le (h : List Msg) (b : Int) (ht : (totalChars h : Int) ≤ b) :
    truncate_history_by_chars h b = h := by
  by_cases hb : b ≤ 0 <;> simp [truncate_history_by_chars, hb, ht]

theorem truncLoop_total_le (b : Int) (l : List Msg) :
    ∀ acc : List Msg, (totalChars acc : Int) ≤ b →
      (totalChars (truncLoop b acc (totalChars acc) l) : Int) ≤ b := by
  induction l with
  | nil => intro acc hacc; simpa [truncLoop] using hacc
  | cons m rest ih =>
    intro acc hacc
    simp only [truncLoop]
    split
    · rename_i hfit
      have he : totalChars acc + m.content.length = totalChars (acc ++ [m]) := by
        simp [totalChars_append, totalChars]
      rw [he]
      refine ih _ ?_
      rw [← he]
      push_cast
      omega
    · rename_i hnofit
      split
      · rename_i hrem
        simp only [totalChars_append, totalChars, pyTakeLast, List.length_drop]
        push_cast
        omega
      · exact hacc

theorem trunc_total_le_of_sys_le (h : List Msg) (b : Int) (hb : 0 < b)
    (hs : (totalChars (h.filter isSystem) : Int) ≤ b) :
    (totalChars (truncate_history_by_chars h b) : Int) ≤ b := by
  by_cases ht : (totalChars h : Int) ≤ b
  · rw [trunc_of_total_le h b ht]; exact ht
  · have hb' : ¬ b ≤ 0 := by omega
    simp only [truncate_history_by_chars]
    rw [if_neg hb', if_neg ht, totalChars_reverse]
    exact truncLoop_total_le b _ _ hs

theorem truncLoop_of_lt (b : Int) (l acc : List Msg) (cur : Nat) (hc : b < (cur : Int)) :
    truncLoop b acc cur l = acc := by
  cases l with
  | nil => rfl
  | cons m rest =>
    have h1 : ¬ ((cur : Int) + m.content.length ≤ b) := by
      have : (0 : Int) ≤ m.content.length := Int.ofNat_nonneg _
      omega
    have h2 : ¬ (b - (cur : Int) > 50) := by omega
    simp only [truncLoop]
    rw [if_neg h1, if_neg h2]

/-! ### Claims about `truncate_history_by_chars` -/

/-- C6: `truncate_history_by_chars(history, maxChars)` returns the history
unchanged both for every `maxChars <= 0` and for every history whose total
content length `L` satisfies `maxChars >= L`. -/
theorem truncate_unchanged_outside_budget (h : List Msg) (b : Int)
    (hc : b ≤ 0 ∨ (totalChars h : Int) ≤ b) :
    truncate_history_by_chars h b = h := by
  rcases hc with hb | ht
  · exact trunc_of_nonpos h b hb
  · exact trunc_of_total_le h b ht

/-- Witness for C6 at a concrete input. -/
theorem truncate_unchanged_outside_budget_witness :
    truncate_history_by_chars [sampleSys, sampleU1] (-1) = [sampleSys, sampleU1] :=
  truncate_unchanged_outside_budget _ _ (Or.inl (by decide))

/-- C4: for every history containing a system turn and every `maxChars > 0`,
the system turn is present in the result of
`truncate_history_by_chars(history, maxChars)` with its content unmodified
(the very same turn is an element of the result), even if the content
length of the system turn alone exceeds `maxChars`. -/
theorem truncate_preserves_system_turn (h : List Msg) (b : Int) (m : Msg)
    (hb : 0 < b) (hm : m ∈ h) (hr : m.role = pstr ("system")) :
    m ∈ truncate_history_by_chars h b := by
  by_cases ht : (totalChars h : Int) ≤ b
  · rw [trunc_of_total_le h b ht]; exact hm
  · have hb' : ¬ b ≤ 0 := by omega
    simp only [truncate_history_by_chars]
    rw [if_neg hb', if_neg ht]
    apply List.mem_reverse.mpr
    apply truncLoop_acc_subset
    exact List.mem_filter.mpr ⟨hm, by simp [isSystem, hr]⟩

/-- Witness for C4 at a concrete input (a history that overflows
the budget 15, whose system turn is nevertheless kept). -/
theorem truncate_preserves_system_turn_witness :
    sampleSys ∈ truncate_history_by_chars [sampleSys, sampleU1, sampleU2] 15 :=
  truncate_preserves_system_turn _ _ _ (by decide) (by decide) (by decide)

/-- C5: for every history and every `maxChars`, every non-system turn in the
result of `truncate_history_by_chars(history, maxChars)` has content that is
a suffix of (or identical to) the content of the corresponding original
turn (an original turn with the same role and timestamp). -/
theorem truncate_nonsystem_content_suffix (h : List Msg) (b : Int) (x : Msg)
    (hx : x ∈ truncate_history_by_chars h b) (hns : x.role ≠ pstr ("system")) :
    ∃ m ∈ h, x.role = m.role ∧ x.time = m.time ∧ ∃ p, p ++ x.content = m.content := by
  by_cases hb : b ≤ 0
  · rw [trunc_of_nonpos h b hb] at hx
    exact ⟨x, hx, rfl, rfl, [], by simp⟩
  by_cases ht : (totalChars h : Int) ≤ b
  · rw [trunc_of_total_le h b ht] at hx
    exact ⟨x, hx, rfl, rfl, [], by simp⟩
  · simp only [truncate_history_by_chars] at hx
    rw [if_neg hb, if_neg ht] at hx
    rcases mem_truncLoop _ _ _ _ _ (List.mem_reverse.mp hx) with hacc | ⟨m, hm, hprop⟩
    · exact ⟨x, (List.mem_filter.mp hacc).1, rfl, rfl, [], by simp⟩
    · exact ⟨m, (List.mem_filter.mp (List.mem_reverse.mp hm)).1, hprop⟩

/-- Witness for C5 at a concrete input: the kept most-recent user turn of an
overflowing history is (a suffix of) an original turn. -/
theorem truncate_nonsystem_content_suffix_witness :
    ∃ m ∈ [sampleSys, sampleU1, sampleU2],
      sampleU2.role = m.role ∧ sampleU2.time = m.time ∧ ∃ p, p ++ sampleU2.content = m.content :=
  truncate_nonsystem_content_suffix [sampleSys, sampleU1, sampleU2] 15 sampleU2
    (by decide) (by decide)

/-- C9: for every history where the total content length of system turns is at
most `maxChars`, with `maxChars > 0`, the total content length of
`truncate_history_by_chars(history, maxChars)` is at most `maxChars`. -/
theorem truncate_result_within_budget (h : List Msg) (b : Int) (hb : 0 < b)
    (hs : (totalChars (h.filter isSystem) : Int) ≤ b) :
    (totalChars (truncate_history_by_chars h b) : Int) ≤ b :=
  trunc_total_le_of_sys_le h b hb hs

/-- Witness for C9 at a concrete overflowing input. -/
theorem truncate_result_within_budget_witness :
    (totalChars (truncate_history_by_chars [sampleSys, sampleU1, sampleU2] 15) : Int) ≤ 15 :=
  truncate_result_within_budget _ _ (by decide) (by decide)

/-- C1: the claim states that on a truncated history with one system turn
the result is chronological with the system turn FIRST, then the kept
non-system turns oldest to newest.  The code instead reverses the whole
accumulated list, whose head is the system turn, so the system turn comes
out LAST: at a history of one system turn (1 char) and two user turns (10 chars each)
with budget 15 (total 21), the code keeps the system turn and the most
recent user turn but returns them as `[user, system]`, not `[system, user]`.
This contradicts the stated data-model intent of the program (system persona first,
as in the `build_input_from_history` docstring format) — a defect, not a
spec error. -/
theorem truncate_places_system_turn_last :
    truncate_history_by_chars [sampleSys, sampleU1, sampleU2] 15 = [sampleU2, sampleSys] ∧
    truncate_history_by_chars [sampleSys, sampleU1, sampleU2] 15 ≠ [sampleSys, sampleU2] := by
  constructor
  · decide
  · decide

/-- C10 counterexample: `truncate_history_by_chars` is not idempotent as
claimed for EVERY history — a history of two system turns whose total
exceeds the budget is flipped by the final reversal on every call, so a
second application flips it back. -/
theorem truncate_not_idempotent_two_system_turns :
    truncate_history_by_chars
        (truncate_history_by_chars
          [⟨pstr ("system"), pstr ("ab"), pstr ("t1")⟩,
           ⟨pstr ("system"), pstr ("cd"), pstr ("t2")⟩] 1) 1
      ≠ truncate_history_by_chars
          [⟨pstr ("system"), pstr ("ab"), pstr ("t1")⟩,
           ⟨pstr ("system"), pstr ("cd"), pstr ("t2")⟩] 1 := by
  decide

/-- C10 (amended): for every history containing at most one system turn —
the invariant of the program itself — and every `maxChars`,
`truncate_history_by_chars` is idempotent. -/
theorem truncate_idempotent_single_system (h : List Msg) (b : Int)
    (hone : (h.filter isSystem).length ≤ 1) :
    truncate_history_by_chars (truncate_history_by_chars h b) b
      = truncate_history_by_chars h b := by
  by_cases hb : b ≤ 0
  · rw [trunc_of_nonpos _ _ hb, trunc_of_nonpos _ _ hb]
  by_cases ht : (totalChars h : Int) ≤ b
  · rw [trunc_of_total_le _ _ ht, trunc_of_total_le _ _ ht]
  by_cases hs : (totalChars (h.filter isSystem) : Int) ≤ b
  · exact trunc_of_total_le _ _ (trunc_total_le_of_sys_le h b (by omega) hs)
  · have e1 : truncate_history_by_chars h b = (h.filter isSystem).reverse := by
      simp only [truncate_history_by_chars]
      rw [if_neg hb, if_neg ht, truncLoop_of_lt _ _ _ _ (by omega)]
    rcases hfs : h.filter isSystem with _ | ⟨s, tl⟩
    · rw [hfs] at hs
      simp [totalChars] at hs
      omega
    · rcases tl with _ | ⟨s2, tl2⟩
      · have hsys : isSystem s = true := by
          have hmem : s ∈ h.filter isSystem := by
            rw [hfs]; exact List.mem_cons_self _ _
          exact (List.mem_filter.mp hmem).2
        rw [hfs] at e1 hs
        have e1' : truncate_history_by_chars h b = [s] := by rw [e1]; rfl
        rw [e1']
        have hns : ¬ ((totalChars [s] : Int) ≤ b) := hs
        simp only [truncate_history_by_chars]
        rw [if_neg hb, if_neg hns]
        simp [hsys, truncLoop]
      · rw [hfs] at hone
        simp at hone

/-- Witness for the amended C10 theorem at a concrete overflowing input with
exactly one system turn. -/
theorem truncate_idempotent_single_system_witness :
    truncate_history_by_chars (truncate_history_by_chars [sampleSys, sampleU1, sampleU2] 15) 15
      = truncate_history_by_chars [sampleSys, sampleU1, sampleU2] 15 :=
  truncate_idempotent_single_system _ _ (by decide)

/-! ### Claims about `build_input_from_history` -/

theorem intercalate_cons_cons (sep a b : PyStr) (l : List PyStr) :
    List.intercalate sep (a :: b :: l) = a ++ sep ++ List.intercalate sep (b :: l) := by
  simp [List.intercalate, List.intersperse_cons_cons]

/-- C8 counterexample: the content of a turn is NOT rendered verbatim after
`[ROLE]: ` — the code strips leading and trailing whitespace
(`m["content"].strip()`, line 71), so for content `" hola "` the rendered
line is `[USER]: hola`, not the verbatim `[USER]:  hola `. -/
theorem build_input_content_not_verbatim :
    build_input_from_history [⟨pstr ("user"), pstr (" hola "), pstr ("t1")⟩]
        = pstr ("[USER]: hola") ∧
    build_input_from_history [⟨pstr ("user"), pstr (" hola "), pstr ("t1")⟩]
        ≠ pstr ("[USER]:  hola ") := by
  constructor
  · decide
  · decide

/-- C8 (amended): for every history, `build_input_from_history` returns the
concatenation of every turn (including system) rendered as
`[ROLE]: content` with ROLE uppercased and coerced to one of
SYSTEM|USER|ASSISTANT (any unrecognized role label coerced to USER) and
content stripped of leading and trailing whitespace, turns separated by a
blank line, in chronological (input) order — stated against the spec-side
recursive rendering `specFlattened`. -/
theorem build_input_eq_spec_flattened (h : List Msg) :
    build_input_from_history h = specFlattened h := by
  induction h with
  | nil => rfl
  | cons m rest ih =>
    cases rest with
    | nil =>
      simp [build_input_from_history, buildParts, List.intercalate, specFlattened,
        renderTurn, specRenderTurn]
    | cons m2 tl =>
      have hb : build_input_from_history (m :: m2 :: tl)
          = renderTurn m ++ pstr ("\n\n") ++ build_input_from_history (m2 :: tl) := by
        simp only [build_input_from_history, buildParts]
        exact intercalate_cons_cons _ _ _ _
      rw [hb, ih]
      rfl

/-! ### Claims about `parse_groq_response` -/

/-- C2 counterexample: an `output` element that directly exposes a string
`content` field does NOT have that value returned — the code only scans
list-valued `content` fields, so `parse_groq_response` falls through to the
capped JSON dump of the whole payload. -/
theorem parse_direct_content_field_not_returned :
    parse_groq_response
        (.obj [(pstr ("output"), .arr [.obj [(pstr ("content"), .str (pstr ("hi")))]])])
      = .str (pstr ("\x7b\"output\": [\x7b\"content\": \"hi\"\x7d]\x7d")) ∧
    parse_groq_response
        (.obj [(pstr ("output"), .arr [.obj [(pstr ("content"), .str (pstr ("hi")))]])])
      ≠ .str (pstr ("hi")) := by
  refine ⟨rfl, ?_⟩
  intro hcon
  rw [(rfl :
    parse_groq_response
        (.obj [(pstr ("output"), .arr [.obj [(pstr ("content"), .str (pstr ("hi")))]])])
      = .str (pstr ("\x7b\"output\": [\x7b\"content\": \"hi\"\x7d]\x7d")))] at hcon
  injection hcon with hs
  exact absurd hs (by decide)

/-- C2 (amended): in the `output` branch of `parse_groq_response`, an
element that is a plain string, or that directly exposes a string `content`
field, is skipped by the scan; a return happens only from a dict element
whose list-valued `content` holds a dict with a string `text` (or
`content`) field — the first such value found is returned — and when the
scan finds nothing the function falls through to the `choices` / `text` /
JSON-dump fallbacks. -/
theorem parse_output_scan_behaviour :
    (∀ (s : PyStr) (rest : List JVal), scanOutputs (.str s :: rest) = scanOutputs rest) ∧
    (∀ (s : PyStr) (rest : List JVal),
        scanOutputs (.obj [(pstr ("content"), .str s)] :: rest) = scanOutputs rest) ∧
    (∀ (fields : List (PyStr × JVal)) (outs : List JVal) (t : PyStr),
        jGet fields (pstr ("output")) = some (.arr outs) → scanOutputs outs = some t →
          parse_groq_response (.obj fields) = .str t) ∧
    (∀ (fields : List (PyStr × JVal)) (outs : List JVal),
        jGet fields (pstr ("output")) = some (.arr outs) → scanOutputs outs = none →
          parse_groq_response (.obj fields) = parseAfterOutput fields) := by
  refine ⟨fun s rest => rfl, fun s rest => ?_, fun fields outs t hget hscan => ?_, fun fields outs hget hscan => ?_⟩
  · cases s with
    | nil => rfl
    | cons c cs => rfl
  · have hos : outputScan fields = some t := by
      unfold outputScan
      rw [hget]
      exact hscan
    have hred : parse_groq_response (.obj fields)
        = (match outputScan fields with
           | some t => JVal.str t
           | none => parseAfterOutput fields) := rfl
    rw [hred, hos]
  · have hos : outputScan fields = none := by
      unfold outputScan
      rw [hget]
      exact hscan
    have hred : parse_groq_response (.obj fields)
        = (match outputScan fields with
           | some t => JVal.str t
           | none => parseAfterOutput fields) := rfl
    rw [hred, hos]

/-- Witness for the amended C2 theorem: the canonical Groq shape
`data["output"][0]["content"][0]["text"]` is extracted. -/
theorem parse_output_scan_behaviour_witness :
    parse_groq_response
        (.obj [(pstr ("output"),
          .arr [.obj [(pstr ("content"), .arr [.obj [(pstr ("text"), .str (pstr ("hi")))]])]])])
      = .str (pstr ("hi")) :=
  parse_output_scan_behaviour.2.2.1 _ _ _ (by rfl) (by rfl)

/-- C3 counterexample: the string form of a non-dict input is NOT size-capped —
line 84 returns `str(data)` whole, so a 5000-character string input comes
back with all 5000 characters, beyond the ≈3000-4000-character caps the
specification describes. -/
theorem parse_nondict_not_size_capped :
    parse_groq_response (.str (List.replicate 5000 'a')) = .str (List.replicate 5000 'a') ∧
    (List.replicate 5000 'a').length = 5000 :=
  ⟨rfl, by rw [List.length_replicate]⟩

/-- C3 (amended): for every input value that is not a dict,
`parse_groq_response` returns exactly its Python string form `str(value)`,
with no size cap applied. -/
theorem parse_nondict_returns_str_form (v : JVal) (hv : v.isObj = false) :
    parse_groq_response v = .str (pyStrOf v) := by
  cases v with
  | str s => rfl
  | num n => rfl
  | bool b => rfl
  | null => rfl
  | arr xs => rfl
  | obj fs => exact absurd hv (by simp [JVal.isObj])

/-- Witness for the amended C3 theorem at a concrete non-dict input. -/
theorem parse_nondict_returns_str_form_witness :
    parse_groq_response (.str (pstr ("plainstr"))) = .str (pyStrOf (.str (pstr ("plainstr")))) :=
  parse_nondict_returns_str_form _ (by rfl)

/-! ### Claim about `call_groq_api_with_input` -/

/-- C7: the API key reaches only the request headers handed to the
transport; the string built from any transport outcome (connection
exception, non-2xx status with body, or unparsable body) never depends on
it — the returned text is identical across two runs that differ only in
the API key value. -/
theorem call_api_error_text_key_independent
    (input k1 k2 endpoint : PyStr) (t : Int) (o : TransportOutcome) :
    call_groq_api_with_input input k1 endpoint t o
      = call_groq_api_with_input input k2 endpoint t o := by
  cases o <;> rfl
